import Mathlib

/-!
Verification of the MyMuduo TCP networking library core against its
natural-language specification.  The C++ sources are shallowly embedded:
`std::vector<char>` becomes `List Nat`, `size_t` becomes `Nat` (all
subtractions are guarded by the same preconditions the C++ code asserts),
`ssize_t` syscall results become `Int` oracles supplied as parameters, and
side effects (callbacks, epoll_ctl calls, logging) become explicit action
lists returned by the embedded functions.
-/

namespace MyMuduo

/-- Element-wise forward copy of externally supplied bytes `data` into the
array `xs` starting at position `i`; models `std::copy(d, d + len, begin() + i)`
where the source does not alias the destination array. -/
def writeBytes : List Nat → Nat → List Nat → List Nat
  | xs, _, [] => xs
  | xs, i, b :: bs => writeBytes (xs.set i b) (i + 1) bs

/-- Element-wise forward copy inside one array, reading `n` elements starting
at `src` and writing them starting at `dst`, each read seeing earlier writes;
models `std::copy(begin() + src, begin() + src + n, begin() + dst)`. -/
def stdCopy : List Nat → Nat → Nat → Nat → List Nat
  | xs, _, _, 0 => xs
  | xs, src, dst, Nat.succ n => stdCopy (xs.set dst (xs.getD src 0)) (src + 1) (dst + 1) n

/-- The `n`-element slice of `xs` starting at index `i`. -/
def extractN (xs : List Nat) (i n : Nat) : List Nat := (xs.drop i).take n

/-- `std::vector::resize(n)`: truncate to `n` elements, or extend with
value-initialized (zero) elements. -/
def resizeList (xs : List Nat) (n : Nat) : List Nat :=
  xs.take n ++ List.replicate (n - xs.length) 0

/-! ### Buffer (src/Buffer.h, src/Buffer.cc) -/

/-- `Buffer::kCheapPrepend`: space reserved in front for a protocol header. -/
def kCheapPrepend : Nat := 8

/-- `Buffer::kInitialSize`. -/
def kInitialSize : Nat := 1024

/-- The `Buffer` class: a byte array and the two cursors. -/
structure Buffer where
  buffer_ : List Nat
  readerIndex_ : Nat
  writerIndex_ : Nat
  deriving DecidableEq, Repr

/-- The `Buffer(initialSize)` constructor. -/
def mkBuffer (initialSize : Nat) : Buffer :=
  { buffer_ := List.replicate (kCheapPrepend + initialSize) 0
    readerIndex_ := kCheapPrepend
    writerIndex_ := kCheapPrepend }

/-- `Buffer::readableBytes()`. -/
def Buffer.readableBytes (b : Buffer) : Nat := b.writerIndex_ - b.readerIndex_

/-- `Buffer::writableBytes()`. -/
def Buffer.writableBytes (b : Buffer) : Nat := b.buffer_.length - b.writerIndex_

/-- `Buffer::prependableBytes()`. -/
def Buffer.prependableBytes (b : Buffer) : Nat := b.readerIndex_

/-- Contents of the readable region `[peek(), peek() + readableBytes())`. -/
def Buffer.readableList (b : Buffer) : List Nat :=
  extractN b.buffer_ b.readerIndex_ b.readableBytes

/-- `Buffer::retrieveAll()`. -/
def Buffer.retrieveAll (b : Buffer) : Buffer :=
  { b with readerIndex_ := kCheapPrepend, writerIndex_ := kCheapPrepend }

/-- `Buffer::retrieve(len)`; the code asserts `len <= readableBytes()`. -/
def Buffer.retrieve (b : Buffer) (len : Nat) : Buffer :=
  if len < b.readableBytes then { b with readerIndex_ := b.readerIndex_ + len }
  else b.retrieveAll

/-- `Buffer::retrieveAsString(len)`: the returned string and the mutated
buffer; the code asserts `len <= readableBytes()`. -/
def Buffer.retrieveAsString (b : Buffer) (len : Nat) : List Nat × Buffer :=
  (extractN b.buffer_ b.readerIndex_ len, b.retrieve len)

/-- `Buffer::retrieveAllAsString()`. -/
def Buffer.retrieveAllAsString (b : Buffer) : List Nat × Buffer :=
  b.retrieveAsString b.readableBytes

/-- `Buffer::makeSpace(len)` (src/Buffer.cc lines 91-109). -/
def Buffer.makeSpace (b : Buffer) (len : Nat) : Buffer :=
  if b.writableBytes + b.prependableBytes < len + kCheapPrepend then
    { b with buffer_ := resizeList b.buffer_ (b.writerIndex_ + len) }
  else
    { buffer_ := stdCopy b.buffer_ b.readerIndex_ kCheapPrepend b.readableBytes
      readerIndex_ := kCheapPrepend
      writerIndex_ := kCheapPrepend + b.readableBytes }

/-- `Buffer::ensureWritableBytes(len)`. -/
def Buffer.ensureWritableBytes (b : Buffer) (len : Nat) : Buffer :=
  if b.writableBytes < len then b.makeSpace len else b

/-- `Buffer::append(data, len)`. -/
def Buffer.append (b : Buffer) (data : List Nat) : Buffer :=
  let b1 := b.ensureWritableBytes data.length
  { b1 with
    buffer_ := writeBytes b1.buffer_ b1.writerIndex_ data
    writerIndex_ := b1.writerIndex_ + data.length }

/-- `Buffer::prepend(data, len)`; the code asserts `len <= prependableBytes()`. -/
def Buffer.prepend (b : Buffer) (data : List Nat) : Buffer :=
  { b with
    readerIndex_ := b.readerIndex_ - data.length
    buffer_ := writeBytes b.buffer_ (b.readerIndex_ - data.length) data }

/-- `Buffer::readFd(fd, savedErrno)` (src/Buffer.cc lines 18-55), with the
`readv` syscall modelled by its result `n` and the bytes it delivered
(the first `writableBytes()` of which land in the buffer's writable region,
the rest in the 64 KiB stack buffer that is then appended). -/
def Buffer.readFd (b : Buffer) (n : Int) (bytes : List Nat) : Buffer :=
  if n < 0 then b
  else if n.toNat ≤ b.writableBytes then
    { b with
      buffer_ := writeBytes b.buffer_ b.writerIndex_ bytes
      writerIndex_ := b.writerIndex_ + n.toNat }
  else
    let writable := b.writableBytes
    let b1 : Buffer :=
      { b with
        buffer_ := writeBytes b.buffer_ b.writerIndex_ (bytes.take writable)
        writerIndex_ := b.buffer_.length }
    b1.append (bytes.drop writable)

/-- Well-formedness of a buffer: the cursor layout documented at the top of
src/Buffer.h, with the reader cursor only bounded below by `0` (a `prepend`
may move it below `kCheapPrepend`). -/
def Buffer.wf (b : Buffer) : Prop :=
  kCheapPrepend ≤ b.writerIndex_ ∧ b.readerIndex_ ≤ b.writerIndex_ ∧
    b.writerIndex_ ≤ b.buffer_.length

instance (b : Buffer) : Decidable b.wf := by unfold Buffer.wf; infer_instance

/-- A sequence of `append` calls. -/
def appendAll (b : Buffer) (datas : List (List Nat)) : Buffer :=
  datas.foldl Buffer.append b

/-! ### Buffer mutator sequences (for the cursor invariant) -/

/-- The Buffer mutators, each carrying the data it consumes. -/
inductive BufOp where
  | retrieve (len : Nat)
  | retrieveAll
  | retrieveAsString (len : Nat)
  | prepend (data : List Nat)
  | append (data : List Nat)
  | ensureWritableBytes (len : Nat)
  | makeSpace (len : Nat)
  deriving DecidableEq, Repr

/-- The precondition each mutator asserts in the source (`assert(...)` in
src/Buffer.h); mutators without an assertion have no precondition. -/
def BufOp.pre (op : BufOp) (b : Buffer) : Prop :=
  match op with
  | .retrieve len => len ≤ b.readableBytes
  | .retrieveAll => True
  | .retrieveAsString len => len ≤ b.readableBytes
  | .prepend data => data.length ≤ b.prependableBytes
  | .append _ => True
  | .ensureWritableBytes _ => True
  | .makeSpace _ => True

/-- Running one mutator. -/
def BufOp.run (op : BufOp) (b : Buffer) : Buffer :=
  match op with
  | .retrieve len => b.retrieve len
  | .retrieveAll => b.retrieveAll
  | .retrieveAsString len => (b.retrieveAsString len).2
  | .prepend data => b.prepend data
  | .append data => b.append data
  | .ensureWritableBytes len => b.ensureWritableBytes len
  | .makeSpace len => b.makeSpace len

/-- Every mutator in the sequence satisfies its precondition when reached. -/
def opsValid (b : Buffer) : List BufOp → Prop
  | [] => True
  | op :: ops => op.pre b ∧ opsValid (op.run b) ops

/-- Running a sequence of mutators. -/
def applyOps (b : Buffer) : List BufOp → Buffer
  | [] => b
  | op :: ops => applyOps (op.run b) ops

instance (op : BufOp) (b : Buffer) : Decidable (op.pre b) := by
  cases op <;> unfold BufOp.pre <;> infer_instance

instance instDecidableOpsValid (ops : List BufOp) (b : Buffer) :
    Decidable (opsValid b ops) := by
  induction ops generalizing b with
  | nil => exact isTrue trivial
  | cons op ops ih =>
    unfold opsValid
    have := ih (op.run b)
    infer_instance

/-! ### Channel (src/Channel.h, src/Channel.cc) -/

/-- Linux `epoll` event bits, as used through `<sys/epoll.h>`. -/
def EPOLLIN : Nat := 1

def EPOLLPRI : Nat := 2

def EPOLLOUT : Nat := 4

def EPOLLERR : Nat := 8

def EPOLLHUP : Nat := 16

/-- `Channel::kNoneEvent`. -/
def kNoneEvent : Nat := 0

/-- `Channel::kReadEvent = EPOLLIN | EPOLLPRI`. -/
def kReadEvent : Nat := EPOLLIN ||| EPOLLPRI

/-- `Channel::kWriteEvent = EPOLLOUT`. -/
def kWriteEvent : Nat := EPOLLOUT

/-- The part of a `Channel` that `handleEvent` inspects: the last-reported
event mask, the tie flag, and which of the four handler slots are installed. -/
structure Channel where
  revents_ : Nat
  tied_ : Bool
  hasReadCb : Bool
  hasWriteCb : Bool
  hasCloseCb : Bool
  hasErrorCb : Bool
  deriving DecidableEq, Repr

/-- One handler invocation observed during a dispatch. -/
inductive ChannelEvent where
  | closeEv
  | errorEv
  | readEv (receiveTime : Nat)
  | writeEv
  deriving DecidableEq, Repr

/-- `Channel::handleEventWithGuard(receiveTime)` (src/Channel.cc lines 65-97),
returning the handlers invoked, in invocation order. -/
def Channel.handleEventWithGuard (c : Channel) (receiveTime : Nat) : List ChannelEvent :=
  (if c.revents_ &&& EPOLLHUP ≠ 0 ∧ c.revents_ &&& EPOLLIN = 0 then
    (if c.hasCloseCb then [ChannelEvent.closeEv] else []) else [])
  ++ (if c.revents_ &&& EPOLLERR ≠ 0 then
    (if c.hasErrorCb then [ChannelEvent.errorEv] else []) else [])
  ++ (if c.revents_ &&& (EPOLLIN ||| EPOLLPRI) ≠ 0 then
    (if c.hasReadCb then [ChannelEvent.readEv receiveTime] else []) else [])
  ++ (if c.revents_ &&& EPOLLOUT ≠ 0 then
    (if c.hasWriteCb then [ChannelEvent.writeEv] else []) else [])

/-- `Channel::handleEvent(receiveTime)` (src/Channel.cc lines 48-62).
`tieAlive` is the oracle for whether `tie_.lock()` succeeds (the observed
owner is still alive). -/
def Channel.handleEvent (c : Channel) (tieAlive : Bool) (receiveTime : Nat) :
    List ChannelEvent :=
  if c.tied_ then
    (if tieAlive then c.handleEventWithGuard receiveTime else [])
  else c.handleEventWithGuard receiveTime

/-! ### EPollPoller channel bookkeeping (src/EPollPoller.cc) -/

/-- `kNew`: the channel was never added to the poller (`index_ = -1`). -/
def kNew : Int := -1

/-- `kAdded`: the channel is registered with the poller. -/
def kAdded : Int := 1

/-- `kDeleted`: the channel was registered and has been removed from the
epoll set, but its map entry is kept. -/
def kDeleted : Int := 2

/-- The poller bookkeeping state: per fd, the channel object's `index_` tag
and `events_` mask, and whether `channels_` (the fd → Channel* map) has an
entry for the fd. -/
structure PollerState where
  chanIndex : Nat → Int
  chanEvents : Nat → Nat
  channels_ : Nat → Bool

/-- One `epoll_ctl` operation issued through `EPollPoller::update`. -/
inductive EpollCtl where
  | add (fd : Nat)
  | mod (fd : Nat)
  | del (fd : Nat)
  deriving DecidableEq, Repr

/-- `EPollPoller::updateChannel` (src/EPollPoller.cc lines 113-144), returning
the new bookkeeping state and the `epoll_ctl` calls issued. -/
def updateChannel (s : PollerState) (fd : Nat) : PollerState × List EpollCtl :=
  if s.chanIndex fd = kNew ∨ s.chanIndex fd = kDeleted then
    (if s.chanIndex fd = kNew then
      ({ chanIndex := fun f => if f = fd then kAdded else s.chanIndex f
         chanEvents := s.chanEvents
         channels_ := fun f => if f = fd then true else s.channels_ f },
        [EpollCtl.add fd])
    else
      ({ chanIndex := fun f => if f = fd then kAdded else s.chanIndex f
         chanEvents := s.chanEvents
         channels_ := s.channels_ },
        [EpollCtl.add fd]))
  else
    if s.chanEvents fd = 0 then
      ({ s with chanIndex := fun f => if f = fd then kDeleted else s.chanIndex f },
        [EpollCtl.del fd])
    else
      (s, [EpollCtl.mod fd])

/-- `EPollPoller::removeChannel` (src/EPollPoller.cc lines 150-163): erase the
map entry, issue `EPOLL_CTL_DEL` only when the tag was `kAdded`, reset the tag
to `kNew`. -/
def removeChannel (s : PollerState) (fd : Nat) : PollerState × List EpollCtl :=
  ({ chanIndex := fun f => if f = fd then kNew else s.chanIndex f
     chanEvents := s.chanEvents
     channels_ := fun f => if f = fd then false else s.channels_ f },
    if s.chanIndex fd = kAdded then [EpollCtl.del fd] else [])

/-- The operations that touch the poller bookkeeping: the two poller entry
points, plus a channel changing its own interest mask (enable/disable calls)
before asking for an update. -/
inductive PollerOp where
  | update (fd : Nat)
  | remove (fd : Nat)
  | setEvents (fd : Nat) (events : Nat)
  deriving DecidableEq, Repr

/-- Running one bookkeeping operation. -/
def PollerOp.run (op : PollerOp) (s : PollerState) : PollerState :=
  match op with
  | .update fd => (updateChannel s fd).1
  | .remove fd => (removeChannel s fd).1
  | .setEvents fd ev => { s with chanEvents := fun f => if f = fd then ev else s.chanEvents f }

/-- Running a sequence of bookkeeping operations. -/
def applyPollerOps (s : PollerState) : List PollerOp → PollerState
  | [] => s
  | op :: ops => applyPollerOps (op.run s) ops

/-- The initial state: every channel is constructed with `index_ = -1`
(src/Channel.cc line 14) and the poller map is empty. -/
def initPoller : PollerState :=
  { chanIndex := fun _ => kNew, chanEvents := fun _ => 0, channels_ := fun _ => false }

/-- Every channel present in the poller's map is `kAdded` or `kDeleted`. -/
def pollerInv (s : PollerState) : Prop :=
  ∀ fd, s.channels_ fd = true → s.chanIndex fd = kAdded ∨ s.chanIndex fd = kDeleted

/-! ### Poller factory (src/DefaultPoller.cc) -/

/-- The two poller variants the specification names. -/
inductive PollerKind where
  | epoll
  | pollLevelTriggered
  deriving DecidableEq, Repr

/-- `Poller::newDefaultPoller` (src/DefaultPoller.cc lines 12-28):
`usePollEnvSet` is whether `getenv("MUDUO_USE_POLL")` is non-null; the
`PollPoller` branch returns `nullptr` (modelled as `none`) because that
class is not implemented. -/
def newDefaultPoller (usePollEnvSet : Bool) : Option PollerKind :=
  if usePollEnvSet then none else some PollerKind.epoll

/-! ### TcpConnection (src/TcpConnection.h, src/TcpConnection.cc) -/

/-- `errno` values used by `sendInLoop` (Linux). -/
def EWOULDBLOCK : Nat := 11

def EPIPE : Nat := 32

def ECONNRESET : Nat := 104

/-- `TcpConnection::StateE`. -/
inductive StateE where
  | kConnecting
  | kConnected
  | kDisconnecting
  | kDisconnected
  deriving DecidableEq, Repr

/-- The part of a `TcpConnection` (with its channel) that its handlers read
and write: connection state, the channel's interest mask, the two buffers,
the high-water threshold, and which optional callbacks are installed. -/
structure TcpConnection where
  state_ : StateE
  events_ : Nat
  inputBuffer_ : Buffer
  outputBuffer_ : Buffer
  highWaterMark_ : Nat
  hasWriteCompleteCb : Bool
  hasHighWaterMarkCb : Bool
  deriving DecidableEq, Repr

/-- Externally observable effects of a connection handler. -/
inductive Action where
  | messageCb (readable : List Nat) (receiveTime : Nat)
  | connectionCb
  | closeCb
  | removeChannel
  | queueWriteComplete
  | queueHighWaterMark (totalOutput : Nat)
  | syscallWrite
  | shutdownWR
  | logError
  deriving DecidableEq, Repr

/-- Whether an action is a scheduled high-water-mark callback. -/
def Action.isHighWater : Action → Bool
  | Action.queueHighWaterMark _ => true
  | _ => false

/-- `Channel::isWriting()` for the connection's channel. -/
def TcpConnection.isWriting (c : TcpConnection) : Bool :=
  c.events_ &&& kWriteEvent ≠ 0

/-- `Channel::enableWriting()` for the connection's channel (`events_ |= kWriteEvent`). -/
def TcpConnection.enableWriting (c : TcpConnection) : TcpConnection :=
  { c with events_ := c.events_ ||| kWriteEvent }

/-- `Channel::disableWriting()` for the connection's channel
(`events_ &= ~kWriteEvent` on a 32-bit mask; `~EPOLLOUT = 0xFFFFFFFB`). -/
def TcpConnection.disableWriting (c : TcpConnection) : TcpConnection :=
  { c with events_ := c.events_ &&& 4294967291 }

/-- `Channel::disableAll()` for the connection's channel. -/
def TcpConnection.disableAll (c : TcpConnection) : TcpConnection :=
  { c with events_ := kNoneEvent }

/-- `TcpConnection::handleClose` (src/TcpConnection.cc lines 359-369). -/
def TcpConnection.handleClose (c : TcpConnection) : TcpConnection × List Action :=
  let c1 := TcpConnection.disableAll { c with state_ := StateE.kDisconnected }
  (c1, [Action.connectionCb, Action.closeCb])

/-- `TcpConnection::handleError` (src/TcpConnection.cc lines 374-389): reads
`SO_ERROR` and logs it. -/
def TcpConnection.handleError (_ : TcpConnection) : List Action := [Action.logError]

/-- `TcpConnection::handleRead` (src/TcpConnection.cc lines 291-311), with
the `readFd` syscall modelled by its result `n` and the delivered bytes. -/
def TcpConnection.handleRead (c : TcpConnection) (n : Int) (bytes : List Nat)
    (receiveTime : Nat) : TcpConnection × List Action :=
  let c1 := { c with inputBuffer_ := c.inputBuffer_.readFd n bytes }
  if 0 < n then
    (c1, [Action.messageCb c1.inputBuffer_.readableList receiveTime])
  else if n = 0 then c1.handleClose
  else (c1, Action.logError :: c1.handleError)

/-- `TcpConnection::connectDestroyed` (src/TcpConnection.cc lines 277-286). -/
def TcpConnection.connectDestroyed (c : TcpConnection) : TcpConnection × List Action :=
  if c.state_ = StateE.kConnected then
    let c1 := TcpConnection.disableAll { c with state_ := StateE.kDisconnected }
    (c1, [Action.connectionCb, Action.removeChannel])
  else
    (c, [Action.removeChannel])

/-- `TcpConnection::shutdownInLoop` (src/TcpConnection.cc lines 243-251). -/
def TcpConnection.shutdownInLoop (c : TcpConnection) : TcpConnection × List Action :=
  if c.isWriting = false then (c, [Action.shutdownWR]) else (c, [])

/-- `TcpConnection::handleWrite` (src/TcpConnection.cc lines 316-352), with
the `::write` syscall modelled by its result `n` (the enabled branch always
performs the syscall before inspecting `n`). -/
def TcpConnection.handleWrite (c : TcpConnection) (n : Int) : TcpConnection × List Action :=
  if c.isWriting then
    if 0 < n then
      let c1 := { c with outputBuffer_ := c.outputBuffer_.retrieve n.toNat }
      if c1.outputBuffer_.readableBytes = 0 then
        let c2 := c1.disableWriting
        let wcActs := if c2.hasWriteCompleteCb then [Action.queueWriteComplete] else []
        if c2.state_ = StateE.kDisconnecting then
          (c2.shutdownInLoop.1, Action.syscallWrite :: (wcActs ++ c2.shutdownInLoop.2))
        else (c2, Action.syscallWrite :: wcActs)
      else (c1, [Action.syscallWrite])
    else (c, [Action.syscallWrite, Action.logError])
  else (c, [Action.logError])

/-- The `nwrote` value computed by `sendInLoop`: the direct-write attempt is
made only when the channel is not watching for write and the output buffer is
empty; a failed write resets `nwrote` to 0. -/
def sendNwrote (c : TcpConnection) (wres : Int) : Nat :=
  if c.isWriting = false ∧ c.outputBuffer_.readableBytes = 0 then
    (if 0 ≤ wres then wres.toNat else 0)
  else 0

/-- The `faultError` flag computed by `sendInLoop`: a failed direct write
with `errno` of `EPIPE` or `ECONNRESET` (and not `EWOULDBLOCK`). -/
def sendFault (c : TcpConnection) (wres : Int) (werrno : Nat) : Bool :=
  if c.isWriting = false ∧ c.outputBuffer_.readableBytes = 0 then
    (if wres < 0 then
      (if werrno ≠ EWOULDBLOCK ∧ (werrno = EPIPE ∨ werrno = ECONNRESET) then true else false)
    else false)
  else false

/-- `TcpConnection::sendInLoop(data, len)` (src/TcpConnection.cc lines
154-216), with the direct `::write` syscall modelled by its result `wres`
and its `errno` value `werrno`. -/
def TcpConnection.sendInLoop (c : TcpConnection) (data : List Nat) (wres : Int)
    (werrno : Nat) : TcpConnection × List Action :=
  if c.state_ = StateE.kDisconnected then (c, [Action.logError])
  else
    let nwrote := sendNwrote c wres
    let acts1 : List Action :=
      if c.isWriting = false ∧ c.outputBuffer_.readableBytes = 0 then
        (if 0 ≤ wres then
          (if data.length - wres.toNat = 0 ∧ c.hasWriteCompleteCb then
            [Action.queueWriteComplete] else [])
        else
          (if werrno ≠ EWOULDBLOCK then [Action.logError] else []))
      else []
    let remaining := data.length - nwrote
    if sendFault c wres werrno = false ∧ 0 < remaining then
      let oldLen := c.outputBuffer_.readableBytes
      let hwActs :=
        if c.highWaterMark_ ≤ oldLen + remaining ∧ oldLen < c.highWaterMark_ ∧
            c.hasHighWaterMarkCb then
          [Action.queueHighWaterMark (oldLen + remaining)]
        else []
      let c2 := { c with outputBuffer_ := c.outputBuffer_.append (data.drop nwrote) }
      ((if c2.isWriting = false then c2.enableWriting else c2), acts1 ++ hwActs)
    else (c, acts1)

/-! ### Basic lemmas about the byte-array helpers -/

theorem length_writeBytes (data : List Nat) (xs : List Nat) (i : Nat) :
    (writeBytes xs i data).length = xs.length := by
  induction data generalizing xs i with
  | nil => rfl
  | cons b bs ih => simp [writeBytes, ih]

theorem length_stdCopy (n : Nat) (xs : List Nat) (src dst : Nat) :
    (stdCopy xs src dst n).length = xs.length := by
  induction n generalizing xs src dst with
  | zero => rfl
  | succ n ih => simp [stdCopy, ih]

theorem length_resizeList (xs : List Nat) (n : Nat) :
    (resizeList xs n).length = n := by
  simp [resizeList]; omega

theorem length_extractN (xs : List Nat) (i n : Nat) :
    (extractN xs i n).length = min n (xs.length - i) := by
  simp [extractN]

theorem writeBytes_eq_splice (data : List Nat) (xs : List Nat) (i : Nat)
    (h : i + data.length ≤ xs.length) :
    writeBytes xs i data = xs.take i ++ data ++ xs.drop (i + data.length) := by
  induction data generalizing xs i with
  | nil => simp [writeBytes]
  | cons b bs ih =>
    have hi : i < xs.length := by simp at h; omega
    have hset : xs.set i b = xs.take i ++ b :: xs.drop (i + 1) := by
      rw [List.set_eq_take_append_cons_drop]; simp [hi]
    rw [writeBytes, ih (xs.set i b) (i + 1) (by simp at h ⊢; omega), hset]
    have hlen : (xs.take i).length = i := by simp; omega
    have eS1 : List.take (i + 1) (xs.take i ++ b :: xs.drop (i + 1))
        = xs.take i ++ [b] := by
      rw [List.take_append_eq_append_take, hlen]
      have e1 : List.take (i + 1) (xs.take i) = xs.take i := by
        rw [List.take_take]; congr 1; omega
      have e2 : i + 1 - i = 1 := by omega
      rw [e1, e2]
      rfl
    have eS2 : List.drop (i + 1 + bs.length) (xs.take i ++ b :: xs.drop (i + 1))
        = xs.drop (i + (b :: bs).length) := by
      rw [List.drop_append_eq_append_drop, hlen]
      have e1 : List.drop (i + 1 + bs.length) (xs.take i) = [] :=
        List.drop_eq_nil_of_le (by simp; omega)
      have e2 : i + 1 + bs.length - i = bs.length + 1 := by omega
      rw [e1, e2, List.drop_succ_cons, List.drop_drop]
      simp
      congr 1
      omega
    rw [eS1, eS2]
    simp

theorem drop_set_of_lt (xs : List Nat) (i : Nat) (v : Nat) (j : Nat) (h : i < j) :
    (xs.set i v).drop j = xs.drop j := by
  by_cases hi : i < xs.length
  · rw [List.set_eq_take_append_cons_drop]
    simp only [hi, if_true]
    rw [List.drop_append_eq_append_drop]
    have hlen : (xs.take i).length = i := by simp; omega
    have h1 : List.drop j (xs.take i) = [] :=
      List.drop_eq_nil_of_le (by simp; omega)
    have h2 : j - (xs.take i).length = (j - i - 1) + 1 := by rw [hlen]; omega
    rw [h1, h2, List.drop_succ_cons, List.drop_drop]
    simp
    congr 1
    omega
  · rw [List.set_eq_of_length_le (by omega)]

theorem extractN_cons (xs : List Nat) (i n : Nat) (h : i < xs.length) :
    extractN xs i (n + 1) = xs.getD i 0 :: extractN xs (i + 1) n := by
  unfold extractN
  rw [List.drop_eq_getElem_cons h, List.take_succ_cons, List.getD_eq_getElem _ _ h]

theorem stdCopy_eq_writeBytes (n : Nat) (xs : List Nat) (src dst : Nat)
    (hd : dst ≤ src) (hb : src + n ≤ xs.length) :
    stdCopy xs src dst n = writeBytes xs dst (extractN xs src n) := by
  induction n generalizing xs src dst with
  | zero => simp [stdCopy, extractN, writeBytes]
  | succ n ih =>
    have hsrc : src < xs.length := by omega
    rw [stdCopy, ih (xs.set dst (xs.getD src 0)) (src + 1) (dst + 1) (by omega)
      (by simp; omega)]
    rw [extractN_cons xs src n hsrc, writeBytes]
    congr 1
    unfold extractN
    rw [drop_set_of_lt _ _ _ _ (by omega)]

/-! ### Region lemmas for Buffer operations -/

theorem length_readableList (b : Buffer) (h : b.wf) :
    b.readableList.length = b.readableBytes := by
  obtain ⟨h1, h2, h3⟩ := h
  simp [Buffer.readableList, length_extractN, Buffer.readableBytes]
  omega

theorem extractN_take_readable (b : Buffer) (len : Nat)
    (hlen : len ≤ b.readableBytes) :
    extractN b.buffer_ b.readerIndex_ len = b.readableList.take len := by
  unfold Buffer.readableList extractN
  rw [List.take_take]
  congr 1
  omega

theorem extractN_resizeList (xs : List Nat) (n r m : Nat)
    (h1 : r + m ≤ n) (h2 : r + m ≤ xs.length) :
    extractN (resizeList xs n) r m = extractN xs r m := by
  unfold resizeList extractN
  rw [List.drop_append_of_le_length (by simp; omega)]
  rw [List.take_append_of_le_length (by simp; omega)]
  rw [List.drop_take]
  rw [List.take_take]
  congr 1
  omega

theorem wf_retrieveAll (b : Buffer) (h : b.wf) : b.retrieveAll.wf := by
  obtain ⟨h1, h2, h3⟩ := h
  refine ⟨le_refl _, le_refl _, ?_⟩
  simp [Buffer.retrieveAll]
  omega

theorem readableBytes_retrieveAll (b : Buffer) : b.retrieveAll.readableBytes = 0 := by
  simp [Buffer.retrieveAll, Buffer.readableBytes]

theorem wf_retrieve (b : Buffer) (len : Nat) (h : b.wf) : (b.retrieve len).wf := by
  unfold Buffer.retrieve
  split
  · obtain ⟨h1, h2, h3⟩ := h
    rename_i hlt
    unfold Buffer.readableBytes at hlt
    refine ⟨?_, ?_, ?_⟩ <;> simp <;> omega
  · exact wf_retrieveAll b h

theorem readableList_retrieve (b : Buffer) (len : Nat) (h : b.wf)
    (hlen : len ≤ b.readableBytes) :
    (b.retrieve len).readableList = b.readableList.drop len := by
  obtain ⟨h1, h2, h3⟩ := h
  unfold Buffer.retrieve
  split
  · rename_i hlt
    unfold Buffer.readableBytes at hlt hlen
    unfold Buffer.readableList Buffer.readableBytes extractN
    dsimp only
    rw [List.drop_take, List.drop_drop]
    rw [Nat.add_comm b.readerIndex_ len]
    congr 1
    omega
  · rename_i hge
    unfold Buffer.readableBytes at hlen hge
    unfold Buffer.retrieveAll Buffer.readableList Buffer.readableBytes extractN
    dsimp only
    have e0 : kCheapPrepend - kCheapPrepend = 0 := by omega
    rw [e0, List.take_zero]
    symm
    apply List.drop_eq_nil_of_le
    simp
    omega

theorem wf_makeSpace (b : Buffer) (len : Nat) (h : b.wf) : (b.makeSpace len).wf := by
  obtain ⟨h1, h2, h3⟩ := h
  unfold Buffer.makeSpace
  split
  · exact ⟨h1, h2, by simp [length_resizeList]⟩
  · rename_i hc
    unfold Buffer.writableBytes Buffer.prependableBytes at hc
    refine ⟨by simp [kCheapPrepend], by simp [Buffer.readableBytes], ?_⟩
    simp [length_stdCopy, Buffer.readableBytes, kCheapPrepend] at hc ⊢
    omega

theorem writable_makeSpace (b : Buffer) (len : Nat) (h : b.wf) :
    len ≤ (b.makeSpace len).writableBytes := by
  obtain ⟨h1, h2, h3⟩ := h
  unfold Buffer.makeSpace
  split
  · simp [Buffer.writableBytes, length_resizeList]
  · rename_i hc
    unfold Buffer.writableBytes Buffer.prependableBytes at hc
    simp [Buffer.writableBytes, length_stdCopy, Buffer.readableBytes, kCheapPrepend] at hc ⊢
    omega

theorem readableList_makeSpace (b : Buffer) (len : Nat) (h : b.wf)
    (hcall : b.writableBytes < len) :
    (b.makeSpace len).readableList = b.readableList := by
  obtain ⟨h1, h2, h3⟩ := h
  unfold Buffer.writableBytes at hcall
  unfold Buffer.makeSpace
  split
  · rename_i hc
    unfold Buffer.readableList Buffer.readableBytes
    dsimp only
    exact extractN_resizeList _ _ _ _ (by omega) (by omega)
  · rename_i hc
    unfold Buffer.writableBytes Buffer.prependableBytes at hc
    have h8 : kCheapPrepend = 8 := rfl
    have hr : kCheapPrepend ≤ b.readerIndex_ := by omega
    unfold Buffer.readableList Buffer.readableBytes
    dsimp only
    rw [stdCopy_eq_writeBytes _ _ _ _ hr (by omega)]
    rw [writeBytes_eq_splice _ _ _ (by rw [length_extractN]; omega)]
    have hlen8 : (b.buffer_.take kCheapPrepend).length = kCheapPrepend := by
      simp
      omega
    have hE : (extractN b.buffer_ b.readerIndex_ (b.writerIndex_ - b.readerIndex_)).length
        = b.writerIndex_ - b.readerIndex_ := by
      rw [length_extractN]
      omega
    rw [List.append_assoc]
    unfold extractN
    rw [List.drop_append_of_le_length (by rw [hlen8])]
    have eA : List.drop kCheapPrepend (b.buffer_.take kCheapPrepend) = [] :=
      List.drop_eq_nil_of_le (by simp)
    rw [eA, List.nil_append]
    have e2 : kCheapPrepend + (b.writerIndex_ - b.readerIndex_) - kCheapPrepend
        = b.writerIndex_ - b.readerIndex_ := by omega
    rw [e2]
    rw [List.take_append_of_le_length (by rw [← extractN, hE])]
    rw [← extractN]
    rw [List.take_of_length_le (by rw [hE])]

theorem wf_ensureWritableBytes (b : Buffer) (len : Nat) (h : b.wf) :
    (b.ensureWritableBytes len).wf := by
  unfold Buffer.ensureWritableBytes
  split
  · exact wf_makeSpace b len h
  · exact h

theorem writable_ensureWritableBytes (b : Buffer) (len : Nat) (h : b.wf) :
    len ≤ (b.ensureWritableBytes len).writableBytes := by
  unfold Buffer.ensureWritableBytes
  split
  · exact writable_makeSpace b len h
  · omega

theorem readableList_ensureWritableBytes (b : Buffer) (len : Nat) (h : b.wf) :
    (b.ensureWritableBytes len).readableList = b.readableList := by
  unfold Buffer.ensureWritableBytes
  split
  · exact readableList_makeSpace b len h (by assumption)
  · rfl

theorem wf_append (b : Buffer) (data : List Nat) (h : b.wf) : (b.append data).wf := by
  have hw := wf_ensureWritableBytes b data.length h
  have hwr := writable_ensureWritableBytes b data.length h
  obtain ⟨h1, h2, h3⟩ := hw
  unfold Buffer.writableBytes at hwr
  unfold Buffer.append
  refine ⟨?_, ?_, ?_⟩ <;> simp [length_writeBytes] <;> omega

theorem readableList_append (b : Buffer) (data : List Nat) (h : b.wf) :
    (b.append data).readableList = b.readableList ++ data := by
  have hw := wf_ensureWritableBytes b data.length h
  have hwr := writable_ensureWritableBytes b data.length h
  have hrl := readableList_ensureWritableBytes b data.length h
  set b1 := b.ensureWritableBytes data.length with hb1
  obtain ⟨h1, h2, h3⟩ := hw
  unfold Buffer.writableBytes at hwr
  rw [← hrl]
  unfold Buffer.append
  rw [← hb1]
  unfold Buffer.readableList Buffer.readableBytes extractN
  dsimp only
  rw [writeBytes_eq_splice _ _ _ (by omega)]
  rw [List.append_assoc]
  have hlenT : (b1.buffer_.take b1.writerIndex_).length = b1.writerIndex_ := by
    simp
    omega
  rw [List.drop_append_of_le_length (by rw [hlenT]; omega)]
  have e1 : b1.writerIndex_ + data.length - b1.readerIndex_
      = (b1.writerIndex_ - b1.readerIndex_) + data.length := by omega
  rw [e1]
  rw [List.take_append_eq_append_take]
  have hlenD : (List.drop b1.readerIndex_ (b1.buffer_.take b1.writerIndex_)).length
      = b1.writerIndex_ - b1.readerIndex_ := by
    simp
    omega
  rw [List.take_of_length_le (by rw [hlenD]; omega)]
  rw [hlenD]
  have e2 : b1.writerIndex_ - b1.readerIndex_ + data.length
      - (b1.writerIndex_ - b1.readerIndex_) = data.length := by omega
  rw [e2]
  rw [List.take_append_of_le_length (by omega)]
  rw [List.take_length]
  congr 1
  rw [List.drop_take]

theorem readableBytes_append (b : Buffer) (data : List Nat) (h : b.wf) :
    (b.append data).readableBytes = b.readableBytes + data.length := by
  have hw := wf_ensureWritableBytes b data.length h
  have hrb : (b.ensureWritableBytes data.length).readableBytes = b.readableBytes := by
    have e1 := length_readableList b h
    have e2 := length_readableList (b.ensureWritableBytes data.length) hw
    rw [readableList_ensureWritableBytes b data.length h] at e2
    omega
  obtain ⟨h1, h2, h3⟩ := hw
  unfold Buffer.append
  unfold Buffer.readableBytes at hrb ⊢
  dsimp only
  omega

theorem wf_prepend (b : Buffer) (data : List Nat) (h : b.wf) : (b.prepend data).wf := by
  obtain ⟨h1, h2, h3⟩ := h
  unfold Buffer.prepend
  refine ⟨?_, ?_, ?_⟩ <;> simp [length_writeBytes] <;> omega

theorem retrieveAsString_fst (b : Buffer) (len : Nat) (hlen : len ≤ b.readableBytes) :
    (b.retrieveAsString len).1 = b.readableList.take len := by
  unfold Buffer.retrieveAsString
  exact extractN_take_readable b len hlen

theorem retrieveAsString_snd (b : Buffer) (len : Nat) (h : b.wf)
    (hlen : len ≤ b.readableBytes) :
    (b.retrieveAsString len).2.readableList = b.readableList.drop len := by
  unfold Buffer.retrieveAsString
  exact readableList_retrieve b len h hlen

/-! ### Helper lemmas for the claim theorems -/

theorem wf_run (op : BufOp) (b : Buffer) (h : b.wf) (hp : op.pre b) : (op.run b).wf := by
  cases op with
  | retrieve len => exact wf_retrieve b len h
  | retrieveAll => exact wf_retrieveAll b h
  | retrieveAsString len => exact wf_retrieve b len h
  | prepend data => exact wf_prepend b data h
  | append data => exact wf_append b data h
  | ensureWritableBytes len => exact wf_ensureWritableBytes b len h
  | makeSpace len => exact wf_makeSpace b len h

theorem wf_applyOps (ops : List BufOp) :
    ∀ b : Buffer, b.wf → opsValid b ops → (applyOps b ops).wf := by
  induction ops with
  | nil => intro b h _; exact h
  | cons op ops ih =>
    intro b h hv
    exact ih (op.run b) (wf_run op b h hv.1) hv.2

theorem wf_mkBuffer (initialSize : Nat) : (mkBuffer initialSize).wf := by
  unfold mkBuffer Buffer.wf
  simp

theorem wf_appendAll (datas : List (List Nat)) :
    ∀ b : Buffer, b.wf →
      (appendAll b datas).wf
        ∧ (appendAll b datas).readableList = b.readableList ++ datas.flatten := by
  induction datas with
  | nil => intro b h; simp [appendAll]; exact h
  | cons d ds ih =>
    intro b h
    have h1 := wf_append b d h
    have h2 := readableList_append b d h
    have h3 := ih (b.append d) h1
    unfold appendAll at h3 ⊢
    simp only [List.foldl_cons]
    refine ⟨h3.1, ?_⟩
    rw [h3.2, h2]
    simp

theorem readableList_eq_nil (b : Buffer) (h : b.wf) (h0 : b.readableBytes = 0) :
    b.readableList = [] := by
  have := length_readableList b h
  rw [h0] at this
  exact List.eq_nil_of_length_eq_zero this

/-- Membership in one guarded handler chunk. -/
theorem mem_iteSingleton (x y : ChannelEvent) (p : Prop) [Decidable p] (q : Bool) :
    (x ∈ (if p then (if q = true then [y] else []) else ([] : List ChannelEvent)))
      ↔ (p ∧ q = true ∧ x = y) := by
  split
  · split <;> simp_all
  · simp_all

/-- Each guarded handler chunk is a sublist of its singleton. -/
theorem iteSingleton_sublist (y : ChannelEvent) (p : Prop) [Decidable p] (q : Bool) :
    List.Sublist (if p then (if q = true then [y] else []) else ([] : List ChannelEvent)) [y] := by
  split
  · split <;> simp
  · simp

theorem updateChannel_new_eq (s : PollerState) (fd : Nat) (h : s.chanIndex fd = kNew) :
    updateChannel s fd =
      ({ chanIndex := fun f => if f = fd then kAdded else s.chanIndex f
         chanEvents := s.chanEvents
         channels_ := fun f => if f = fd then true else s.channels_ f },
        [EpollCtl.add fd]) := by
  unfold updateChannel
  rw [if_pos (Or.inl h), if_pos h]

theorem updateChannel_deleted_eq (s : PollerState) (fd : Nat)
    (h : s.chanIndex fd = kDeleted) :
    updateChannel s fd =
      ({ chanIndex := fun f => if f = fd then kAdded else s.chanIndex f
         chanEvents := s.chanEvents
         channels_ := s.channels_ },
        [EpollCtl.add fd]) := by
  unfold updateChannel
  rw [if_pos (Or.inr h), if_neg (by rw [h]; decide)]

theorem updateChannel_registered_none_eq (s : PollerState) (fd : Nat)
    (h1 : s.chanIndex fd ≠ kNew) (h2 : s.chanIndex fd ≠ kDeleted)
    (he : s.chanEvents fd = 0) :
    updateChannel s fd =
      ({ s with chanIndex := fun f => if f = fd then kDeleted else s.chanIndex f },
        [EpollCtl.del fd]) := by
  unfold updateChannel
  rw [if_neg (by simp [h1, h2]), if_pos he]

theorem updateChannel_registered_mod_eq (s : PollerState) (fd : Nat)
    (h1 : s.chanIndex fd ≠ kNew) (h2 : s.chanIndex fd ≠ kDeleted)
    (he : s.chanEvents fd ≠ 0) :
    updateChannel s fd = (s, [EpollCtl.mod fd]) := by
  unfold updateChannel
  rw [if_neg (by simp [h1, h2]), if_neg he]

theorem pollerInv_run (op : PollerOp) (s : PollerState) (h : pollerInv s) :
    pollerInv (op.run s) := by
  cases op with
  | update fd =>
    intro f hf
    simp only [PollerOp.run] at hf ⊢
    by_cases hn : s.chanIndex fd = kNew
    · rw [updateChannel_new_eq s fd hn] at hf ⊢
      dsimp only at hf ⊢
      by_cases hffd : f = fd
      · rw [if_pos hffd]; left; rfl
      · rw [if_neg hffd] at hf ⊢
        exact h f hf
    · by_cases hd : s.chanIndex fd = kDeleted
      · rw [updateChannel_deleted_eq s fd hd] at hf ⊢
        dsimp only at hf ⊢
        by_cases hffd : f = fd
        · rw [if_pos hffd]; left; rfl
        · rw [if_neg hffd]
          exact h f hf
      · by_cases he : s.chanEvents fd = 0
        · rw [updateChannel_registered_none_eq s fd hn hd he] at hf ⊢
          dsimp only at hf ⊢
          by_cases hffd : f = fd
          · rw [if_pos hffd]; right; rfl
          · rw [if_neg hffd]
            exact h f hf
        · rw [updateChannel_registered_mod_eq s fd hn hd he] at hf ⊢
          exact h f hf
  | remove fd =>
    intro f hf
    simp only [PollerOp.run, removeChannel] at hf ⊢
    by_cases hffd : f = fd
    · rw [if_pos hffd] at hf
      exact absurd hf (by simp)
    · rw [if_neg hffd] at hf ⊢
      exact h f hf
  | setEvents fd ev =>
    intro f hf
    exact h f hf

theorem pollerInv_applyPollerOps (ops : List PollerOp) :
    ∀ s : PollerState, pollerInv s → pollerInv (applyPollerOps s ops) := by
  induction ops with
  | nil => intro s h; exact h
  | cons op ops ih => intro s h; exact ih (op.run s) (pollerInv_run op s h)

theorem pollerInv_init : pollerInv initPoller := by
  intro fd hf
  simp [initPoller] at hf

theorem isWriting_enableWriting (c : TcpConnection) : c.enableWriting.isWriting = true := by
  unfold TcpConnection.enableWriting TcpConnection.isWriting kWriteEvent EPOLLOUT
  simp only [decide_eq_true_eq]
  have h := Nat.and_two_pow (c.events_ ||| 4) 2
  have ht : (c.events_ ||| 4).testBit 2 = true := by
    rw [Nat.testBit_or]
    have : Nat.testBit 4 2 = true := by decide
    simp [this]
  rw [ht] at h
  norm_num at h
  omega

/-! ### Claim theorems -/

/-- C7 counterexample: with `MUDUO_USE_POLL` set, `newDefaultPoller` does not
return the level-triggered poll-based poller — the `PollPoller` branch is
unimplemented and returns a null pointer. -/
theorem newDefaultPoller_cex :
    ¬ (newDefaultPoller true = some PollerKind.pollLevelTriggered) := by
  decide

/-- C7 (amended): `newDefaultPoller` returns the epoll-based poller when
`MUDUO_USE_POLL` is unset, and returns a null pointer (no poller at all,
since `PollPoller` is unimplemented) when the variable is set. -/
theorem newDefaultPoller_spec :
    newDefaultPoller false = some PollerKind.epoll ∧ newDefaultPoller true = none := by
  decide

/-- C9: `connectDestroyed` on a connected connection sets the state to
disconnected, clears the channel interest mask, and fires the user connection
callback; on any other state it changes nothing and fires no callback; in
every case it removes the channel from the poller; and it never fires the
connection callback after `handleClose` has already run. -/
theorem connectDestroyed_spec (c : TcpConnection) :
    (c.state_ = StateE.kConnected →
      c.connectDestroyed =
        ({ c with state_ := StateE.kDisconnected, events_ := kNoneEvent },
          [Action.connectionCb, Action.removeChannel]))
    ∧ (c.state_ ≠ StateE.kConnected →
        c.connectDestroyed = (c, [Action.removeChannel]))
    ∧ Action.removeChannel ∈ c.connectDestroyed.2
    ∧ Action.connectionCb ∉ (TcpConnection.connectDestroyed c.handleClose.1).2 := by
  refine ⟨?_, ?_, ?_, ?_⟩
  · intro h
    unfold TcpConnection.connectDestroyed
    rw [if_pos h]
    rfl
  · intro h
    unfold TcpConnection.connectDestroyed
    rw [if_neg h]
  · unfold TcpConnection.connectDestroyed
    split
    · simp
    · simp
  · unfold TcpConnection.handleClose TcpConnection.connectDestroyed
    rw [if_neg (fun hx => StateE.noConfusion hx)]
    simp

/-- C9 witness: a connected connection torn down by `connectDestroyed`. -/
theorem connectDestroyed_spec_witness :
    TcpConnection.connectDestroyed
        ⟨StateE.kConnected, 3, mkBuffer 4, mkBuffer 4, 64, false, false⟩
      = (⟨StateE.kDisconnected, 0, mkBuffer 4, mkBuffer 4, 64, false, false⟩,
          [Action.connectionCb, Action.removeChannel]) :=
  (connectDestroyed_spec ⟨StateE.kConnected, 3, mkBuffer 4, mkBuffer 4, 64, false, false⟩).1 rfl

/-- C10: when the channel's write interest is disabled at entry, `handleWrite`
only logs: it performs no write syscall and leaves the output buffer, the
interest mask, and the connection state unchanged. -/
theorem handleWrite_frame (c : TcpConnection) (n : Int) (h : c.isWriting = false) :
    c.handleWrite n = (c, [Action.logError])
    ∧ Action.syscallWrite ∉ (c.handleWrite n).2
    ∧ (c.handleWrite n).1.outputBuffer_ = c.outputBuffer_
    ∧ (c.handleWrite n).1.events_ = c.events_
    ∧ (c.handleWrite n).1.state_ = c.state_ := by
  have he : c.handleWrite n = (c, [Action.logError]) := by
    unfold TcpConnection.handleWrite
    rw [if_neg (by rw [h]; simp)]
  refine ⟨he, ?_, ?_, ?_, ?_⟩ <;> (rw [he]; try simp)

/-- C10 witness: a connection watching only for read events. -/
theorem handleWrite_frame_witness :
    TcpConnection.isWriting ⟨StateE.kConnected, 3, mkBuffer 4, mkBuffer 4, 64, true, false⟩ = false
    ∧ TcpConnection.handleWrite ⟨StateE.kConnected, 3, mkBuffer 4, mkBuffer 4, 64, true, false⟩ 5
      = (⟨StateE.kConnected, 3, mkBuffer 4, mkBuffer 4, 64, true, false⟩, [Action.logError]) :=
  ⟨by decide,
   (handleWrite_frame ⟨StateE.kConnected, 3, mkBuffer 4, mkBuffer 4, 64, true, false⟩ 5 (by decide)).1⟩

/-- C2 counterexample: at `n = -1` the read handler dispatches the error path
(`handleError`, which only logs) but never the close path — no connection
callback and no close callback are invoked, contrary to the claim that the
close path follows the error path. -/
theorem handleRead_cex :
    Action.closeCb ∉ (TcpConnection.handleRead
        ⟨StateE.kConnected, 3, mkBuffer 4, mkBuffer 4, 64, false, false⟩ (-1) [] 0).2
    ∧ Action.connectionCb ∉ (TcpConnection.handleRead
        ⟨StateE.kConnected, 3, mkBuffer 4, mkBuffer 4, 64, false, false⟩ (-1) [] 0).2
    ∧ (TcpConnection.handleRead
        ⟨StateE.kConnected, 3, mkBuffer 4, mkBuffer 4, 64, false, false⟩ (-1) [] 0).2
      = [Action.logError, Action.logError] := by
  decide

/-- C2 (amended): `handleRead` calls `inputBuffer_.readFd`; on `n > 0` it
invokes the message callback with the updated input buffer and the receive
time; on `n == 0` it runs the close path (`handleClose`); on `n < 0` it runs
the error path only (a log plus `handleError`) and does not dispatch the
close path. -/
theorem handleRead_spec (c : TcpConnection) (n : Int) (bytes : List Nat) (t : Nat) :
    (0 < n → TcpConnection.handleRead c n bytes t =
        ({ c with inputBuffer_ := c.inputBuffer_.readFd n bytes },
          [Action.messageCb (c.inputBuffer_.readFd n bytes).readableList t]))
    ∧ (n = 0 → TcpConnection.handleRead c n bytes t =
        TcpConnection.handleClose { c with inputBuffer_ := c.inputBuffer_.readFd n bytes })
    ∧ (n < 0 →
        TcpConnection.handleRead c n bytes t =
          ({ c with inputBuffer_ := c.inputBuffer_.readFd n bytes },
            [Action.logError, Action.logError])
        ∧ Action.closeCb ∉ (TcpConnection.handleRead c n bytes t).2
        ∧ Action.connectionCb ∉ (TcpConnection.handleRead c n bytes t).2) := by
  refine ⟨?_, ?_, ?_⟩
  · intro h
    simp only [TcpConnection.handleRead]
    rw [if_pos h]
  · intro h
    subst h
    simp only [TcpConnection.handleRead]
    rw [if_neg (by omega), if_pos trivial]
  · intro h
    have he : TcpConnection.handleRead c n bytes t =
        ({ c with inputBuffer_ := c.inputBuffer_.readFd n bytes },
          [Action.logError, Action.logError]) := by
      simp only [TcpConnection.handleRead]
      rw [if_neg (by omega), if_neg (by omega)]
      rfl
    exact ⟨he, by rw [he]; simp, by rw [he]; simp⟩

/-- C2 witness: a successful read of one byte fires the message callback with
the updated input buffer. -/
theorem handleRead_spec_witness :
    (0:Int) < 1
    ∧ TcpConnection.handleRead
        ⟨StateE.kConnected, 3, mkBuffer 4, mkBuffer 4, 64, false, false⟩ 1 [9] 7
      = (⟨StateE.kConnected, 3, (mkBuffer 4).readFd 1 [9], mkBuffer 4, 64, false, false⟩,
          [Action.messageCb ((mkBuffer 4).readFd 1 [9]).readableList 7]) :=
  ⟨by decide,
   (handleRead_spec ⟨StateE.kConnected, 3, mkBuffer 4, mkBuffer 4, 64, false, false⟩ 1 [9] 7).1
     (by decide)⟩

/-- C4: `handleEvent` skips dispatch entirely when a tie is installed but the
weak observer is dead; otherwise it invokes exactly the handlers whose
reported bit is set and whose slot is installed, in the strict order
close (hang-up without read), error, read (read or urgent, with the receive
time), write. -/
theorem handleEvent_spec (c : Channel) (tieAlive : Bool) (t : Nat) :
    (c.tied_ = true → tieAlive = false → c.handleEvent tieAlive t = [])
    ∧ (ChannelEvent.closeEv ∈ c.handleEvent tieAlive t ↔
        (c.tied_ = false ∨ tieAlive = true)
          ∧ (c.revents_ &&& EPOLLHUP ≠ 0 ∧ c.revents_ &&& EPOLLIN = 0)
          ∧ c.hasCloseCb = true)
    ∧ (ChannelEvent.errorEv ∈ c.handleEvent tieAlive t ↔
        (c.tied_ = false ∨ tieAlive = true)
          ∧ c.revents_ &&& EPOLLERR ≠ 0 ∧ c.hasErrorCb = true)
    ∧ (ChannelEvent.readEv t ∈ c.handleEvent tieAlive t ↔
        (c.tied_ = false ∨ tieAlive = true)
          ∧ c.revents_ &&& (EPOLLIN ||| EPOLLPRI) ≠ 0 ∧ c.hasReadCb = true)
    ∧ (ChannelEvent.writeEv ∈ c.handleEvent tieAlive t ↔
        (c.tied_ = false ∨ tieAlive = true)
          ∧ c.revents_ &&& EPOLLOUT ≠ 0 ∧ c.hasWriteCb = true)
    ∧ List.Sublist (c.handleEvent tieAlive t)
        [ChannelEvent.closeEv, ChannelEvent.errorEv, ChannelEvent.readEv t,
          ChannelEvent.writeEv] := by
  have halive : ∀ x : ChannelEvent,
      x ∈ c.handleEvent tieAlive t ↔
        ((c.tied_ = false ∨ tieAlive = true) ∧ x ∈ c.handleEventWithGuard t) := by
    intro x
    unfold Channel.handleEvent
    cases hT : c.tied_ <;> cases hA : tieAlive <;> simp [hT, hA]
  have hmem : ∀ x : ChannelEvent,
      (x ∈ c.handleEventWithGuard t ↔
        ((c.revents_ &&& EPOLLHUP ≠ 0 ∧ c.revents_ &&& EPOLLIN = 0) ∧ c.hasCloseCb = true
            ∧ x = ChannelEvent.closeEv)
          ∨ (c.revents_ &&& EPOLLERR ≠ 0 ∧ c.hasErrorCb = true ∧ x = ChannelEvent.errorEv)
          ∨ (c.revents_ &&& (EPOLLIN ||| EPOLLPRI) ≠ 0 ∧ c.hasReadCb = true
            ∧ x = ChannelEvent.readEv t)
          ∨ (c.revents_ &&& EPOLLOUT ≠ 0 ∧ c.hasWriteCb = true ∧ x = ChannelEvent.writeEv)) := by
    intro x
    unfold Channel.handleEventWithGuard
    simp only [List.mem_append, mem_iteSingleton, or_assoc]
  have hsub : List.Sublist (c.handleEventWithGuard t)
      ([ChannelEvent.closeEv] ++ [ChannelEvent.errorEv] ++ [ChannelEvent.readEv t]
        ++ [ChannelEvent.writeEv]) := by
    unfold Channel.handleEventWithGuard
    exact List.Sublist.append
      (List.Sublist.append
        (List.Sublist.append (iteSingleton_sublist _ _ _) (iteSingleton_sublist _ _ _))
        (iteSingleton_sublist _ _ _))
      (iteSingleton_sublist _ _ _)
  refine ⟨?_, ?_, ?_, ?_, ?_, ?_⟩
  · intro h1 h2
    unfold Channel.handleEvent
    rw [if_pos h1, if_neg (by rw [h2]; simp)]
  · rw [halive, hmem]
    simp
  · rw [halive, hmem]
    simp
  · rw [halive, hmem]
    simp
  · rw [halive, hmem]
    simp
  · unfold Channel.handleEvent
    split
    · split
      · exact hsub
      · exact List.nil_sublist _
    · exact hsub

/-- C4 witness: an untied channel reporting hang-up (without read) and error,
with close and error handlers installed, dispatches close then error. -/
theorem handleEvent_spec_witness :
    Channel.tied_ ⟨24, false, true, true, true, true⟩ = false
    ∧ (ChannelEvent.closeEv ∈ Channel.handleEvent ⟨24, false, true, true, true, true⟩ true 0
      ↔ (false = false ∨ true = true) ∧ ((24 : Nat) &&& EPOLLHUP ≠ 0 ∧ (24 : Nat) &&& EPOLLIN = 0)
          ∧ true = true) :=
  ⟨rfl, (handleEvent_spec ⟨24, false, true, true, true, true⟩ true 0).2.1⟩

/-- C5: the poller's channel-state machine.  The fd-map invariant (every
mapped channel is `kAdded` or `kDeleted`) holds after any operation sequence
from the initial state; `updateChannel` moves `kNew`/`kDeleted` channels to
`kAdded` via `EPOLL_CTL_ADD` (inserting into the map only for `kNew`);
a registered channel is deregistered (tag `kDeleted`, map entry kept) exactly
when its interest mask is empty and modified otherwise; and `removeChannel`
erases the map entry, issues `EPOLL_CTL_DEL` only when the tag was `kAdded`,
and resets the tag to `kNew`. -/
theorem epoll_channel_state_machine :
    (∀ ops : List PollerOp, pollerInv (applyPollerOps initPoller ops))
    ∧ (∀ (s : PollerState) (fd : Nat), s.chanIndex fd = kNew →
        (updateChannel s fd).1.channels_ fd = true
          ∧ (updateChannel s fd).1.chanIndex fd = kAdded
          ∧ (updateChannel s fd).2 = [EpollCtl.add fd])
    ∧ (∀ (s : PollerState) (fd : Nat), s.chanIndex fd = kDeleted →
        (updateChannel s fd).1.channels_ = s.channels_
          ∧ (updateChannel s fd).1.chanIndex fd = kAdded
          ∧ (updateChannel s fd).2 = [EpollCtl.add fd])
    ∧ (∀ (s : PollerState) (fd : Nat), s.chanIndex fd = kAdded →
        (s.chanEvents fd = 0 →
          (updateChannel s fd).1.chanIndex fd = kDeleted
            ∧ (updateChannel s fd).1.channels_ = s.channels_
            ∧ (updateChannel s fd).2 = [EpollCtl.del fd])
          ∧ (s.chanEvents fd ≠ 0 →
            (updateChannel s fd).1 = s ∧ (updateChannel s fd).2 = [EpollCtl.mod fd]))
    ∧ (∀ (s : PollerState) (fd : Nat),
        (removeChannel s fd).1.channels_ fd = false
          ∧ (removeChannel s fd).1.chanIndex fd = kNew
          ∧ (removeChannel s fd).2
            = (if s.chanIndex fd = kAdded then [EpollCtl.del fd] else [])) := by
  refine ⟨?_, ?_, ?_, ?_, ?_⟩
  · intro ops
    exact pollerInv_applyPollerOps ops initPoller pollerInv_init
  · intro s fd h
    rw [updateChannel_new_eq s fd h]
    exact ⟨by simp, by simp, rfl⟩
  · intro s fd h
    rw [updateChannel_deleted_eq s fd h]
    exact ⟨rfl, by simp, rfl⟩
  · intro s fd h
    constructor
    · intro he
      rw [updateChannel_registered_none_eq s fd (by rw [h]; decide) (by rw [h]; decide) he]
      exact ⟨by simp, rfl, rfl⟩
    · intro he
      rw [updateChannel_registered_mod_eq s fd (by rw [h]; decide) (by rw [h]; decide) he]
      exact ⟨rfl, rfl⟩
  · intro s fd
    unfold removeChannel
    exact ⟨by simp, by simp, rfl⟩

/-- C5 witness: register fd 3, clear its interest, deregister it, then remove
it; the invariant holds, and the first update issued `EPOLL_CTL_ADD`. -/
theorem epoll_channel_state_machine_witness :
    pollerInv (applyPollerOps initPoller
      [PollerOp.update 3, PollerOp.setEvents 3 0, PollerOp.update 3, PollerOp.remove 3])
    ∧ (updateChannel initPoller 3).2 = [EpollCtl.add 3] :=
  ⟨epoll_channel_state_machine.1 _,
   (epoll_channel_state_machine.2.1 initPoller 3 rfl).2.2⟩

/-- C1 counterexample: a single `prepend` of one byte satisfies its stated
precondition (`len <= prependableBytes()`) on a fresh buffer, yet leaves
`readerIndex_ = 7 < kCheapPrepend`, so `kCheapPrepend ≤ readerIndex_` is not
an invariant of the mutators. -/
theorem buffer_cursor_invariant_cex :
    opsValid (mkBuffer 4) [BufOp.prepend [1]]
      ∧ ¬ (kCheapPrepend ≤ (applyOps (mkBuffer 4) [BufOp.prepend [1]]).readerIndex_) := by
  constructor
  · exact ⟨by decide, trivial⟩
  · decide

/-- C1 (amended): after any sequence of mutators each satisfying its stated
precondition, `0 ≤ readerIndex_ ≤ writerIndex_ ≤ buffer size` and
`kCheapPrepend ≤ writerIndex_` hold (the lower bound `kCheapPrepend` holds for
the writer cursor but not for the reader cursor, which `prepend` may take
below `kCheapPrepend`), and immediately after `retrieveAll()` both cursors
equal `kCheapPrepend`. -/
theorem buffer_cursor_invariant (initialSize : Nat) (ops : List BufOp)
    (hv : opsValid (mkBuffer initialSize) ops) :
    ((applyOps (mkBuffer initialSize) ops).readerIndex_
        ≤ (applyOps (mkBuffer initialSize) ops).writerIndex_
      ∧ (applyOps (mkBuffer initialSize) ops).writerIndex_
        ≤ (applyOps (mkBuffer initialSize) ops).buffer_.length
      ∧ kCheapPrepend ≤ (applyOps (mkBuffer initialSize) ops).writerIndex_)
    ∧ ((applyOps (mkBuffer initialSize) ops).retrieveAll.readerIndex_ = kCheapPrepend
      ∧ (applyOps (mkBuffer initialSize) ops).retrieveAll.writerIndex_ = kCheapPrepend) := by
  have h := wf_applyOps ops (mkBuffer initialSize) (wf_mkBuffer initialSize) hv
  exact ⟨⟨h.2.1, h.2.2, h.1⟩, rfl, rfl⟩

/-- C1 witness: an append, a retrieve, and a retrieveAll on a small buffer. -/
theorem buffer_cursor_invariant_witness :
    opsValid (mkBuffer 4) [BufOp.append [1, 2], BufOp.retrieve 1, BufOp.retrieveAll]
    ∧ (applyOps (mkBuffer 4) [BufOp.append [1, 2], BufOp.retrieve 1, BufOp.retrieveAll]).readerIndex_
      ≤ (applyOps (mkBuffer 4) [BufOp.append [1, 2], BufOp.retrieve 1, BufOp.retrieveAll]).writerIndex_ :=
  ⟨by decide,
   (buffer_cursor_invariant 4 [BufOp.append [1, 2], BufOp.retrieve 1, BufOp.retrieveAll]
      (by decide)).1.1⟩

/-- C3: `makeSpace(L)` resizes the array to `writerIndex_ + L` exactly when
`writableBytes() + prependableBytes() < L + kCheapPrepend`, and otherwise
slides the readable bytes down to `kCheapPrepend` (array size unchanged);
the readable byte sequence is unchanged whenever `makeSpace` is reached
(that is, when `writableBytes() < L`, the condition under which
`ensureWritableBytes` invokes it); afterwards `writableBytes() ≥ L` holds
for every well-formed buffer, and likewise after `ensureWritableBytes(L)`,
which also always preserves the readable bytes. -/
theorem makeSpace_spec (b : Buffer) (L : Nat) (h : b.wf) :
    (b.writableBytes + b.prependableBytes < L + kCheapPrepend →
        b.makeSpace L = { b with buffer_ := resizeList b.buffer_ (b.writerIndex_ + L) })
    ∧ (¬ (b.writableBytes + b.prependableBytes < L + kCheapPrepend) →
        (b.makeSpace L).readerIndex_ = kCheapPrepend
          ∧ (b.makeSpace L).writerIndex_ = kCheapPrepend + b.readableBytes
          ∧ (b.makeSpace L).buffer_.length = b.buffer_.length)
    ∧ L ≤ (b.makeSpace L).writableBytes
    ∧ (b.writableBytes < L → (b.makeSpace L).readableList = b.readableList)
    ∧ L ≤ (b.ensureWritableBytes L).writableBytes
    ∧ (b.ensureWritableBytes L).readableList = b.readableList := by
  refine ⟨?_, ?_, ?_, ?_, ?_, ?_⟩
  · intro hc
    unfold Buffer.makeSpace
    rw [if_pos hc]
  · intro hc
    unfold Buffer.makeSpace
    rw [if_neg hc]
    exact ⟨rfl, rfl, by simp [length_stdCopy]⟩
  · exact writable_makeSpace b L h
  · exact readableList_makeSpace b L h
  · exact writable_ensureWritableBytes b L h
  · exact readableList_ensureWritableBytes b L h

/-- C3 witness: a fresh small buffer with 4 writable bytes asked for 5. -/
theorem makeSpace_spec_witness :
    (mkBuffer 4).wf ∧ 5 ≤ ((mkBuffer 4).makeSpace 5).writableBytes :=
  ⟨by decide, (makeSpace_spec (mkBuffer 4) 5 (by decide)).2.2.1⟩

/-- C8: on a buffer with no readable bytes, `append a; append c;
retrieveAllAsString()` returns `a ++ c`; and after any sequence of appends,
`retrieveAsString(len)` with `len` at most the appended length returns
exactly the first `len` appended bytes and consumes them, leaving the rest
readable. -/
theorem append_retrieve_roundtrip (b : Buffer) (h : b.wf) (h0 : b.readableBytes = 0)
    (a c : List Nat) (datas : List (List Nat)) (len : Nat)
    (hlen : len ≤ datas.flatten.length) :
    ((b.append a).append c).retrieveAllAsString.1 = a ++ c
    ∧ ((appendAll b datas).retrieveAsString len).1 = datas.flatten.take len
    ∧ ((appendAll b datas).retrieveAsString len).2.readableList = datas.flatten.drop len := by
  have hnil := readableList_eq_nil b h h0
  have hA := wf_appendAll datas b h
  have hAr : (appendAll b datas).readableList = datas.flatten := by
    rw [hA.2, hnil]
    simp
  have hAlen : (appendAll b datas).readableBytes = datas.flatten.length := by
    have hL := length_readableList (appendAll b datas) hA.1
    rw [hAr] at hL
    omega
  refine ⟨?_, ?_, ?_⟩
  · have h1 := wf_append b a h
    have h2 := wf_append (b.append a) c h1
    have rr : ((b.append a).append c).readableList = a ++ c := by
      rw [readableList_append (b.append a) c h1, readableList_append b a h, hnil]
      simp
    unfold Buffer.retrieveAllAsString
    rw [retrieveAsString_fst _ _ (le_refl _)]
    rw [List.take_of_length_le (by rw [length_readableList _ h2])]
    exact rr
  · rw [retrieveAsString_fst _ _ (by omega), hAr]
  · rw [retrieveAsString_snd _ _ hA.1 (by omega), hAr]

/-- C8 witness: two appends then a partial retrieve on a small buffer. -/
theorem append_retrieve_roundtrip_witness :
    (mkBuffer 4).readableBytes = 0
    ∧ ((appendAll (mkBuffer 4) [[1], [2, 3]]).retrieveAsString 2).1
      = ([[1], [2, 3]] : List (List Nat)).flatten.take 2 :=
  ⟨by decide,
   (append_retrieve_roundtrip (mkBuffer 4) (by decide) (by decide) [] [] [[1], [2, 3]] 2
      (by decide)).2.1⟩

/-- C6: in `sendInLoop`, when a non-zero remainder is to be buffered and no
fault occurred, exactly one high-water callback is scheduled iff the send
crosses the threshold from below (`old_readable < highWaterMark_ ≤
old_readable + remainder`) and a callback is installed; the remainder is then
appended to the output buffer, and write interest is enabled iff it was not
already registered. -/
theorem sendInLoop_highwater (c : TcpConnection) (data : List Nat) (wres : Int)
    (werrno : Nat) (hst : c.state_ ≠ StateE.kDisconnected)
    (hwf : c.outputBuffer_.wf)
    (hfault : sendFault c wres werrno = false)
    (hrem : 0 < data.length - sendNwrote c wres) :
    ((c.sendInLoop data wres werrno).2.countP Action.isHighWater
      = if c.outputBuffer_.readableBytes < c.highWaterMark_
            ∧ c.highWaterMark_ ≤ c.outputBuffer_.readableBytes
                + (data.length - sendNwrote c wres)
            ∧ c.hasHighWaterMarkCb = true
          then 1 else 0)
    ∧ (c.sendInLoop data wres werrno).1.outputBuffer_.readableList
        = c.outputBuffer_.readableList ++ data.drop (sendNwrote c wres)
    ∧ (c.isWriting = false → (c.sendInLoop data wres werrno).1.isWriting = true)
    ∧ (c.isWriting = true → (c.sendInLoop data wres werrno).1.events_ = c.events_) := by
  unfold TcpConnection.sendInLoop
  rw [if_neg hst]
  dsimp only
  rw [if_pos ⟨hfault, hrem⟩]
  have hiff : (c.outputBuffer_.readableBytes < c.highWaterMark_
        ∧ c.highWaterMark_ ≤ c.outputBuffer_.readableBytes
            + (data.length - sendNwrote c wres)
        ∧ c.hasHighWaterMarkCb = true)
      ↔ (c.highWaterMark_ ≤ c.outputBuffer_.readableBytes
            + (data.length - sendNwrote c wres)
        ∧ c.outputBuffer_.readableBytes < c.highWaterMark_
        ∧ c.hasHighWaterMarkCb = true) := by
    constructor
    · rintro ⟨x, y, z⟩; exact ⟨y, x, z⟩
    · rintro ⟨x, y, z⟩; exact ⟨y, x, z⟩
  refine ⟨?_, ?_, ?_, ?_⟩
  · rw [if_congr hiff rfl rfl, List.countP_append]
    by_cases hcond : c.highWaterMark_ ≤ c.outputBuffer_.readableBytes
          + (data.length - sendNwrote c wres)
        ∧ c.outputBuffer_.readableBytes < c.highWaterMark_
        ∧ c.hasHighWaterMarkCb = true
    · rw [if_pos hcond]
      split_ifs <;> rfl
    · rw [if_neg hcond]
      split_ifs <;> rfl
  · split
    · exact readableList_append c.outputBuffer_ (data.drop (sendNwrote c wres)) hwf
    · exact readableList_append c.outputBuffer_ (data.drop (sendNwrote c wres)) hwf
  · intro hw
    have hwc2 : TcpConnection.isWriting
        { c with outputBuffer_ := c.outputBuffer_.append (data.drop (sendNwrote c wres)) }
        = false := hw
    rw [if_pos hwc2]
    exact isWriting_enableWriting _
  · intro hw
    have hwc2 : TcpConnection.isWriting
        { c with outputBuffer_ := c.outputBuffer_.append (data.drop (sendNwrote c wres)) }
        = true := hw
    rw [if_neg (by simp [hwc2])]

/-- C6 witness: a connected, non-writing connection with empty output buffer
and threshold 2; a blocked direct write leaves remainder 3, crossing the
threshold from 0, so exactly one high-water callback is scheduled. -/
theorem sendInLoop_highwater_witness :
    TcpConnection.state_ ⟨StateE.kConnected, 0, mkBuffer 4, mkBuffer 4, 2, false, true⟩
        ≠ StateE.kDisconnected
    ∧ ((TcpConnection.sendInLoop ⟨StateE.kConnected, 0, mkBuffer 4, mkBuffer 4, 2, false, true⟩
          [1, 2, 3] 0 0).2.countP Action.isHighWater
      = if (mkBuffer 4).readableBytes < 2
            ∧ 2 ≤ (mkBuffer 4).readableBytes
                + ([1, 2, 3].length - sendNwrote
                    ⟨StateE.kConnected, 0, mkBuffer 4, mkBuffer 4, 2, false, true⟩ 0)
            ∧ true = true
          then 1 else 0) :=
  ⟨by decide,
   (sendInLoop_highwater ⟨StateE.kConnected, 0, mkBuffer 4, mkBuffer 4, 2, false, true⟩
      [1, 2, 3] 0 0 (by decide) (by decide) (by decide) (by decide)).1⟩
